import Mathlib

/-!
Verification development for the IDE project-generation task
(`src/python/twitter/pants/tasks/ide_gen.py`).

Filesystem paths are modelled as lists of path components (`FsPath`), so that
`os.path.join` is list append, `os.path.dirname` / `os.path.split` drop the
last component, and `os.path.relpath child base` (used only when `base` is a
prefix of `child`) drops the leading components.  Python sets with
deterministic in-process iteration are modelled as insertion-ordered
duplicate-free lists.  Fallible code returns `Option`/an error component, and
the one genuinely non-terminating loop (the unexcludable-ancestor loop) is
modelled with an explicit divergence result (`none`).
-/

abbrev FsPath := List String

abbrev TargetId := Nat

/-- Insertion-ordered set `add`: models `set.add` / `OrderedSet.add`
(append the element if it is not already present). -/
def ordAdd [DecidableEq α] (l : List α) (a : α) : List α :=
  if a ∈ l then l else l ++ [a]

/-- Insertion-ordered set `update`: add every element of `l'` in order. -/
def ordAddAll [DecidableEq α] (l l' : List α) : List α :=
  l'.foldl ordAdd l

/-- Deduplicate keeping the first occurrence of each element, preserving
order; models building a Python set from a traversal with deterministic
iteration. -/
def ordDedup [DecidableEq α] (l : List α) : List α :=
  ordAddAll [] l

/-! ### ClasspathMaterializer: `IdeGen.map_internal_jars`

The staging directories are `work_dir/internal-libs` and
`work_dir/internal-libsources`; both are cleaned (`safe_mkdir(clean=True)`)
before the copy loop, so the copies recorded by the model below are exactly
the staging output present when the function returns or raises.  A raised
`TaskError` is modelled as a `some` error message alongside the copies
performed up to that point. -/

structure ClasspathEntryL where
  jar : FsPath
  source_jar : Option FsPath
  javadoc_jar : Option FsPath
  deriving DecidableEq

/-- Staging state: the `shutil.copy (src, dst)` calls performed so far, in
order, and the `ClasspathEntry` records added to `project.internal_jars`. -/
structure Staged where
  copies : List (FsPath × FsPath)
  internal_jars : List ClasspathEntryL
  deriving DecidableEq

/-- Inner loop of `map_internal_jars`: for each `(base, jars)` item of the
source-jar mapping, require exactly one jar, copy it into the source-jar
staging directory, and remember the last staged source jar. -/
def copySourceJars (src_dir : FsPath) (t : TargetId) :
    List (FsPath × List String) → List (FsPath × FsPath) → Option FsPath →
    List (FsPath × FsPath) × Option FsPath × Option String
  | [], copies, cp => (copies, cp, none)
  | (base, jars) :: rest, copies, cp =>
    if jars.length ≠ 1 then
      (copies, cp, some ("Unexpected mapping, multiple source jars for " ++ toString t))
    else
      let jar := jars.headD ""
      let cp_source_jar := src_dir ++ [jar]
      copySourceJars src_dir t rest (copies ++ [(base ++ [jar], cp_source_jar)])
        (some cp_source_jar)

/-- Per-target loop body of `map_internal_jars`: for each `(base, jars)` item
of the primary mapping, require exactly one jar, copy it, re-stage the whole
source-jar mapping (guarded by `if mappings:`), and record a classpath
entry. -/
def mapJarsTarget (jar_dir src_dir : FsPath) (t : TargetId)
    (src_mappings : List (FsPath × List String)) :
    List (FsPath × List String) → Staged → Staged × Option String
  | [], st => (st, none)
  | (base, jars) :: rest, st =>
    if jars.length ≠ 1 then
      (st, some ("Unexpected mapping, multiple jars for " ++ toString t))
    else
      let jar := jars.headD ""
      let cp_jar := jar_dir ++ [jar]
      let copies := st.copies ++ [(base ++ [jar], cp_jar)]
      let inner :=
        if src_mappings.isEmpty then (copies, none, none)
        else copySourceJars src_dir t src_mappings copies none
      match inner with
      | (copies', _, some e) => (⟨copies', st.internal_jars⟩, some e)
      | (copies', cp_source_jar, none) =>
        mapJarsTarget jar_dir src_dir t src_mappings rest
          ⟨copies', st.internal_jars ++ [⟨cp_jar, cp_source_jar, none⟩]⟩

/-- Outer loop of `map_internal_jars` over the target list; a target with an
empty (falsy) primary mapping is skipped. -/
def mapJarsTargets (jar_dir src_dir : FsPath)
    (internal_jars internal_source_jars : TargetId → List (FsPath × List String)) :
    List TargetId → Staged → Staged × Option String
  | [], st => (st, none)
  | t :: rest, st =>
    let mappings := internal_jars t
    if mappings.isEmpty then
      mapJarsTargets jar_dir src_dir internal_jars internal_source_jars rest st
    else
      match mapJarsTarget jar_dir src_dir t (internal_source_jars t) mappings st with
      | (st', none) => mapJarsTargets jar_dir src_dir internal_jars internal_source_jars rest st'
      | (st', some e) => (st', some e)

/-- Model of `IdeGen.map_internal_jars`: stages internal jars and source jars
into `work_dir/internal-libs` and `work_dir/internal-libsources`, raising
`TaskError` on any `(target, base)` pair mapped to a number of jars different
from one. -/
def map_internal_jars (work_dir : FsPath) (targets : List TargetId)
    (internal_jars internal_source_jars : TargetId → List (FsPath × List String)) :
    Staged × Option String :=
  let internal_jar_dir := work_dir ++ ["internal-libs"]
  let internal_source_jar_dir := work_dir ++ ["internal-libsources"]
  mapJarsTargets internal_jar_dir internal_source_jar_dir internal_jars internal_source_jars
    targets ⟨[], []⟩

/-! ### The unexcludable-ancestor loop (`configure_jvm`, lines 504-512)

The Python loop `while True: add parent; parent, _ = os.path.split(parent);
if parent == root_dir: break` walks upward from a source set's absolute
directory.  In the component-list model `os.path.split` drops the last
component; the filesystem root `/` (the fixed point of `os.path.split`) is
the empty list, so a loop that reaches `[]` without having met `root_dir`
never terminates in Python — modelled here by the result `none`. -/

def unexLoopGo (root : FsPath) : Nat → FsPath → List FsPath → Option (List FsPath)
  | 0, _, _ => none
  | fuel + 1, p, acc =>
    let acc' := ordAdd acc p
    let parent := p.dropLast
    if parent = root then some acc'
    else if p = [] then none
    else unexLoopGo root fuel parent acc'

/-- The ancestor loop on the path `p`.  Each iteration strips one component,
and the `p = []` check fires before any further recursion, so `p.length + 1`
units of fuel are never exhausted: `unexLoop` computes exactly the loop's
result, with `none` standing for the diverging run. -/
def unexLoop (root : FsPath) (p : FsPath) (acc : List FsPath) : Option (List FsPath) :=
  unexLoopGo root (p.length + 1) p acc

/-! ### Data model: SourceSet, Target, Project configuration

`SourceSet.__init__` appends the new set to the class-level shared set
`SourceSet.TEST_BASES` when `is_test` is true.  That process-wide mutable
state is threaded explicitly (`test_bases`). -/

structure SourceSetL where
  root_dir : FsPath
  source_base : FsPath
  path : Option FsPath
  is_test : Bool
  excludes : List FsPath
  deriving DecidableEq

/-- Model of the `SourceSet` constructor: builds the source set (with an
empty exclude list) and, when `is_test` is true, adds `source_base` to the
class-level shared set `SourceSet.TEST_BASES` (second component). -/
def SourceSetInit (root_dir source_base : FsPath) (path : Option FsPath) (is_test : Bool)
    (test_bases : List FsPath) : SourceSetL × List FsPath :=
  (⟨root_dir, source_base, path, is_test, []⟩,
   if is_test then ordAdd test_bases source_base else test_bases)

/-- The absolute directory a configured source set owns:
`os.path.join(root_dir, source_set.source_base, source_set.path)`.  The
`configure_jvm` exclude phase only runs over source sets whose `path` is a
string (extra/python roots carry `None` and are appended afterwards), so the
`getD []` default is never exercised by the modelled call sites. -/
def ssAbsDir (root_dir : FsPath) (s : SourceSetL) : FsPath :=
  root_dir ++ s.source_base ++ s.path.getD []

/-- A declared source or resource file: its directory relative to the
target's base (`os.path.dirname`) and its file name. -/
structure SourceFile where
  dir : FsPath
  file : String
  deriving DecidableEq

/-- A resource group carried by a target: `resources.target_base` together
with `resources.sources`. -/
structure ResourceGroup where
  base : FsPath
  sources : List SourceFile
  deriving DecidableEq

/-- The per-target data consumed by `configure_jvm`; `deps` are the
dependency edges walked by `Target.walk`, and `candidates` are the addresses
gathered from the target's BUILD file plus its ancestor, sibling and
descendant BUILD files (`Target.get_all_addresses`, external collaborator
machinery supplied as input data). -/
structure TargetInfo where
  target_base : FsPath
  sources : List SourceFile
  is_scala : Bool
  is_java : Bool
  is_test : Bool
  is_codegen : Bool
  has_resources : Bool
  resources : List ResourceGroup
  deps : List TargetId
  candidates : List TargetId

/-- Model of `str.endswith` on file names, used by `Target.has_sources(ext)`. -/
def pyEndsWith (s suffixStr : String) : Bool :=
  suffixStr.toList.isSuffixOf s.toList

/-- Model of `target.has_sources(ext)`: some declared source file name ends
with the extension. -/
def has_sources_ext (ti : TargetInfo) (ext : String) : Bool :=
  ti.sources.any (fun s => pyEndsWith s.file ext)

/-- Model of `target.has_sources()`: the target declares at least one source. -/
def has_sources (ti : TargetInfo) : Bool :=
  !ti.sources.isEmpty

/-- Module-level `is_scala`: a Scala source file or the explicit flag. -/
def is_scala (ti : TargetInfo) : Bool :=
  has_sources_ext ti ".scala" || ti.is_scala

/-- Module-level `is_java`: a Java source file or the explicit flag. -/
def is_java (ti : TargetInfo) : Bool :=
  has_sources_ext ti ".java" || ti.is_java

/-- The extension part of `os.path.splitext`: everything from the last dot,
unless every character before that dot is itself a dot. -/
def splitextExt (name : String) : String :=
  let cs := name.toList
  match cs.reverse.findIdx? (fun c => c = '.') with
  | none => ""
  | some j =>
    let i := cs.length - 1 - j
    if (cs.take i).all (fun c => c = '.') then "" else String.mk (cs.drop i)

/-- Model of `Project.extract_resource_extensions`. -/
def extract_resource_extensions (resources : List SourceFile) : List String :=
  resources.map (fun s => splitextExt s.file)

/-- The inputs of a `Project` relevant to `configure_jvm`: project root,
`get_buildroot()` (used for extra roots), the transitive flag, the language
skip flags, the root target set (`OrderedSet(targets)`), and the target
universe lookup. -/
structure ProjectCfg where
  root_dir : FsPath
  buildroot : FsPath
  transitive : Bool
  skip_java : Bool
  skip_scala : Bool
  targets : List TargetId
  info : TargetId → TargetInfo

/-- The mutable `Project` state built up during `configure_jvm`:
`analyzed` and `targeted` are the closures of lines 424-425, `sources` is
`self.sources`, plus the derived flags and the class-level
`SourceSet.TEST_BASES` set threaded explicitly. -/
structure CState where
  analyzed : List TargetId
  targeted : List FsPath
  sources : List SourceSetL
  resource_extensions : List String
  has_scala : Bool
  has_tests : Bool
  test_bases : List FsPath

/-- Model of the closure predicate `source_target` (lines 427-432). -/
def source_target (cfg : ProjectCfg) (t : TargetId) : Bool :=
  let ti := cfg.info t
  (cfg.transitive || decide (t ∈ cfg.targets)) && has_sources ti &&
    (!ti.is_codegen && !(cfg.skip_java && is_java ti) && !(cfg.skip_scala && is_scala ti))

/-- One directory registration of `configure_source_sets` (lines 437-441):
if the absolute directory is not yet targeted, target it and append a new
source set. -/
def cssStep (cfg : ProjectCfg) (relative_base : FsPath) (is_test : Bool)
    (st : CState) (path : FsPath) : CState :=
  let absolute_path := cfg.root_dir ++ relative_base ++ path
  if absolute_path ∈ st.targeted then st
  else
    let r := SourceSetInit cfg.root_dir relative_base (some path) is_test st.test_bases
    { st with targeted := st.targeted ++ [absolute_path],
              sources := st.sources ++ [r.1],
              test_bases := r.2 }

/-- Model of `configure_source_sets` (lines 434-441): group the given files
by directory (`os.path.dirname`) and register each not-yet-targeted absolute
directory as a new source set. -/
def configure_source_sets (cfg : ProjectCfg) (relative_base : FsPath)
    (srcs : List SourceFile) (is_test : Bool) (st : CState) : CState :=
  let paths := ordDedup (srcs.map (fun s => s.dir))
  paths.foldl (cssStep cfg relative_base is_test) st

/-- Model of `find_source_basedirs` (lines 443-449). -/
def find_source_basedirs (cfg : ProjectCfg) (t : TargetId) : List FsPath :=
  let ti := cfg.info t
  if source_target cfg t then
    ordDedup (ti.sources.map (fun s => cfg.root_dir ++ ti.target_base ++ s.dir))
  else []

/-- One `resources_by_basedir[resources.target_base].update(resources.sources)`
step: merge the files into the group of the given base (set-`update`
semantics), creating the group if absent. -/
def groupResourcesInsert (acc : List (FsPath × List SourceFile)) (base : FsPath)
    (srcs : List SourceFile) : List (FsPath × List SourceFile) :=
  match acc with
  | [] => [(base, ordAddAll [] srcs)]
  | (b, s) :: rest =>
    if b = base then (b, ordAddAll s srcs) :: rest
    else (b, s) :: groupResourcesInsert rest base srcs

/-- Grouping of `target.resources` by `resources.target_base`
(`defaultdict(set)` plus `update`, lines 458-460), keeping first-insertion
order for the bases and for the merged source files. -/
def groupResources (rs : List ResourceGroup) : List (FsPath × List SourceFile) :=
  rs.foldl (fun acc r => groupResourcesInsert acc r.base r.sources) []

/-- One resource-group registration of `configure_target` (lines 461-463):
accumulate the group's file extensions and register its directories as
non-test source sets. -/
def configureResourcesStep (cfg : ProjectCfg) (st : CState)
    (bp : FsPath × List SourceFile) : CState :=
  let st := { st with resource_extensions :=
                ordAddAll st.resource_extensions (extract_resource_extensions bp.2) }
  configure_source_sets cfg bp.1 bp.2 false st

/-- The resource registration of `configure_target` (lines 457-463), guarded
by `target.has_resources`. -/
def configureTargetResources (cfg : ProjectCfg) (ti : TargetInfo) (st : CState) : CState :=
  if ti.has_resources then
    (groupResources ti.resources).foldl (configureResourcesStep cfg) st
  else st

/-- The source registration of `configure_target` (lines 465-468), guarded by
`target.sources`: update `has_tests` and register the sources under the
target's base. -/
def configureTargetSources (cfg : ProjectCfg) (ti : TargetInfo) (st : CState) : CState :=
  if !ti.sources.isEmpty then
    configure_source_sets cfg ti.target_base ti.sources ti.is_test
      { st with has_tests := st.has_tests || ti.is_test }
  else st

/-- The state effect of `configure_target` on a not-yet-analyzed target
(lines 453-468): record the target as analyzed, update `has_scala`, register
its grouped resources, then register its sources (updating `has_tests`). -/
def configureTargetState (cfg : ProjectCfg) (t : TargetId) (st : CState) : CState :=
  configureTargetSources cfg (cfg.info t) (configureTargetResources cfg (cfg.info t)
    { st with analyzed := st.analyzed ++ [t],
              has_scala := !cfg.skip_scala && (st.has_scala || is_scala (cfg.info t)) })

/-- The sibling targets discovered by `configure_target` (lines 470-486):
candidate addresses other than the target itself that are source targets
whose touched directories intersect this target's. -/
def configureTargetAdditional (cfg : ProjectCfg) (t : TargetId) : List TargetId :=
  let ti := cfg.info t
  let target_dirset := find_source_basedirs cfg t
  (ti.candidates.filter (fun c => c ≠ t)).filter (fun c =>
    source_target cfg c && target_dirset.any (fun d => d ∈ find_source_basedirs cfg c))

/-- Model of `configure_target` (lines 451-486).  Returns the updated project
state together with the sibling targets discovered for this target (the
return value of the Python closure, walked as additional targets); an
already-analyzed target returns `None`, i.e. no additional targets. -/
def configure_target (cfg : ProjectCfg) (t : TargetId) (st : CState) :
    CState × List TargetId :=
  if t ∈ st.analyzed then (st, [])
  else (configureTargetState cfg t st, configureTargetAdditional cfg t)

/-- Model of `Target.walk(configure_target, predicate=source_target)` for one
root target.  The walk itself lives in the external build-graph collaborator;
following the design contract it is a worklist plus visited-set traversal in
which every dependency edge is traversed, the predicate only gates whether
`configure_target` runs, and the additional targets returned by the work
function are pushed and walked too. -/
def walkWork (cfg : ProjectCfg) : Nat → List TargetId → List TargetId → CState →
    List TargetId × CState
  | 0, _, visited, st => (visited, st)
  | _ + 1, [], visited, st => (visited, st)
  | fuel + 1, t :: rest, visited, st =>
    if t ∈ visited then walkWork cfg fuel rest visited st
    else
      let visited := visited ++ [t]
      let r := if source_target cfg t then configure_target cfg t st else (st, [])
      walkWork cfg fuel ((cfg.info t).deps ++ r.2 ++ rest) visited r.1

/-- The first phase of `configure_jvm` (lines 488-489): walk each root
target, sharing `analyzed`/`targeted`/`sources` across walks (each walk has
its own fresh visited set). -/
def runWalks (cfg : ProjectCfg) (fuel : Nat) (st0 : CState) : CState :=
  cfg.targets.foldl (fun st t => (walkWork cfg fuel [t] [] st).2) st0

/-- Model of `target.walk(lambda target: targets.add(target), source_target)`
(lines 526-528): same traversal, the work function adds predicate-passing
targets to an ordered set and returns no additional targets. -/
def collectWalk (cfg : ProjectCfg) : Nat → List TargetId → List TargetId → List TargetId →
    List TargetId × List TargetId
  | 0, _, visited, acc => (visited, acc)
  | _ + 1, [], visited, acc => (visited, acc)
  | fuel + 1, t :: rest, visited, acc =>
    if t ∈ visited then collectWalk cfg fuel rest visited acc
    else
      let acc := if source_target cfg t then ordAdd acc t else acc
      collectWalk cfg fuel ((cfg.info t).deps ++ rest) (visited ++ [t]) acc

/-- The returned expanded target set (lines 526-529): the ordered set filled
by the collect walks, updated with the analyzed targets not already present. -/
def resultTargets (cfg : ProjectCfg) (fuel : Nat) (analyzed : List TargetId) :
    List TargetId :=
  let acc := cfg.targets.foldl (fun acc t => (collectWalk cfg fuel [t] [] acc).2) []
  ordAddAll acc (analyzed.filter (fun t => !decide (t ∈ acc)))

/-- Model of the unexcludable-path accumulation over all source sets
(lines 504-512); `none` when some source set's ancestor loop diverges. -/
def build_unexcludable (root_dir : FsPath) :
    List SourceSetL → List FsPath → Option (List FsPath)
  | [], acc => some acc
  | s :: rest, acc =>
    match unexLoop root_dir (root_dir ++ s.source_base ++ s.path.getD []) acc with
    | none => none
    | some acc' => build_unexcludable root_dir rest acc'

/-- The directories collected by `os.walk` below `top` (strict descendants
of `top` present in the snapshot), in snapshot order. -/
def fsWalkDirs (fs : List FsPath) (top : FsPath) : List FsPath :=
  fs.filter (fun d => decide (top <+: d) && decide (d ≠ top))

/-- Model of `os.path.relpath child base` at the call site of line 524, where
`base` is always a prefix of `child`. -/
def pyRelpath (child base : FsPath) : FsPath :=
  child.drop base.length

/-- Model of the per-source-set exclude computation (lines 514-524): every
directory on disk below the set's directory that is neither targeted nor
unexcludable is appended to the set's excludes, relative to
`os.path.join(root_dir, source_set.source_base)`. -/
def computeExcludes (root_dir : FsPath) (fs : List FsPath)
    (unexcludable_paths targeted : List FsPath) (s : SourceSetL) : SourceSetL :=
  let source_base := root_dir ++ s.source_base
  let paths := ordDedup (fsWalkDirs fs (source_base ++ s.path.getD []))
  let unused_children := paths.filter (fun c => !decide (c ∈ targeted))
  let excl := (unused_children.filter (fun c => !decide (c ∈ unexcludable_paths))).map
    (fun child => pyRelpath child source_base)
  { s with excludes := excl }

/-- Model of the extra source/test root appends (lines 531-532): one
`SourceSet(get_buildroot(), p, None, is_test)` per supplied path, appended in
order, threading `SourceSet.TEST_BASES`. -/
def extendExtras (buildroot : FsPath) (ps : List FsPath) (is_test : Bool)
    (acc : List SourceSetL × List FsPath) : List SourceSetL × List FsPath :=
  ps.foldl (fun acc p =>
    let r := SourceSetInit buildroot p none is_test acc.2
    (acc.1 ++ [r.1], r.2)) acc

/-- The result of `configure_jvm`: the final `self.sources` list, the
returned expanded target set, the registration set `targeted`, the `analyzed`
closure, the derived flags, the final `SourceSet.TEST_BASES` contents, and
the list of directories against which `os.walk` scans were issued by the
exclude phase (instrumentation recording the roots of the walks of
line 517, in order). -/
structure JvmResult where
  sources : List SourceSetL
  targets : List TargetId
  targeted : List FsPath
  analyzed : List TargetId
  resource_extensions : List String
  has_scala : Bool
  has_tests : Bool
  test_bases : List FsPath
  walked_dirs : List FsPath
  deriving DecidableEq

/-- Model of `Project.configure_jvm` (lines 414-534): walk and analyze the
targets (with sibling discovery), compute unexcludable ancestor paths,
compute each configured source set's excludes, build the returned expanded
target set, and finally append the caller-supplied extra source/test roots.
`none` models divergence of the unexcludable-ancestor loop.  `fuel` bounds
the collaborator graph walk; every property proved below holds for every
fuel. -/
def configure_jvm (cfg : ProjectCfg) (fs : List FsPath) (fuel : Nat)
    (extra_source_paths extra_test_paths : List FsPath) (test_bases0 : List FsPath) :
    Option JvmResult :=
  let st := runWalks cfg fuel ⟨[], [], [], [], false, false, test_bases0⟩
  match build_unexcludable cfg.root_dir st.sources [] with
  | none => none
  | some unexcludable_paths =>
    let sources_excluded :=
      st.sources.map (computeExcludes cfg.root_dir fs unexcludable_paths st.targeted)
    let rtargets := resultTargets cfg fuel st.analyzed
    let ex1 := extendExtras cfg.buildroot extra_source_paths false
      (sources_excluded, st.test_bases)
    let ex2 := extendExtras cfg.buildroot extra_test_paths true ex1
    some ⟨ex2.1, rtargets, st.targeted, st.analyzed, st.resource_extensions,
          st.has_scala, st.has_tests, ex2.2,
          st.sources.map (fun s => ssAbsDir cfg.root_dir s)⟩

/-- A filesystem snapshot with files, for `configure_python`'s
`os.listdir`/`os.path.isdir` checks. -/
structure FsSnap where
  dirs : List FsPath
  files : List FsPath

/-- Model of `os.listdir`: the names of the immediate children of `p`
(directories first, then plain files, in snapshot order). -/
def pyListdir (fsm : FsSnap) (p : FsPath) : List String :=
  ordDedup ((fsm.dirs ++ fsm.files).filterMap (fun d =>
    if d.dropLast = p then d.getLast? else none))

/-- Model of `Project.configure_python` (lines 406-412): extends `py_sources`
with one source set per python source/test root and `py_libs` with one set
per directory or `.egg` entry found under each lib root.  Returns
`(py_sources, py_libs, TEST_BASES)`; note that `configure_python` never
touches `has_tests`. -/
def configure_python (buildroot : FsPath) (fsm : FsSnap)
    (source_roots test_roots lib_roots : List FsPath) (test_bases0 : List FsPath) :
    List SourceSetL × List SourceSetL × List FsPath :=
  let step := fun (acc : List SourceSetL × List FsPath) (rootIsTest : FsPath × Bool) =>
    let r := SourceSetInit buildroot rootIsTest.1 none rootIsTest.2 acc.2
    (acc.1 ++ [r.1], r.2)
  let srcs := (source_roots.map (fun r => (r, false)) ++
               test_roots.map (fun r => (r, true))).foldl step ([], test_bases0)
  let libsStep := fun (acc : List SourceSetL × List FsPath) (root : FsPath) =>
    (pyListdir fsm (buildroot ++ root)).foldl (fun acc path =>
      if decide ((buildroot ++ root ++ [path]) ∈ fsm.dirs) || pyEndsWith path ".egg" then
        let r := SourceSetInit buildroot root (some [path]) false acc.2
        (acc.1 ++ [r.1], r.2)
      else acc) acc
  let libs := lib_roots.foldl libsStep ([], srcs.2)
  (srcs.1, libs.1, libs.2)

/-- The registration invariant of `configure_jvm`'s analysis phase:
`targeted` holds exactly the absolute directories of the registered source
sets, registered directories are pairwise distinct, and every registered set
is a configured one (string `path`, project root, no excludes yet). -/
def GoodState (root : FsPath) (st : CState) : Prop :=
  (∀ D : FsPath, D ∈ st.targeted ↔ ∃ s, s ∈ st.sources ∧ ssAbsDir root s = D)
  ∧ st.sources.Pairwise (fun a b => ssAbsDir root a ≠ ssAbsDir root b)
  ∧ (∀ s, s ∈ st.sources → s.path ≠ none ∧ s.root_dir = root ∧ s.excludes = [])

/-! ### Specification predicates and state relations -/

/-- Formalization of claim C2 as stated: no exclude entry of any source set
names a proper ancestor (strictly below the project root) of any source set's
owned directory. -/
def ancestorSafe (root : FsPath) (r : JvmResult) : Prop :=
  ∀ s, s ∈ r.sources → ∀ e, e ∈ s.excludes → ∀ s', s' ∈ r.sources →
    ¬ (root ++ s.source_base ++ e <+: ssAbsDir s'.root_dir s'
       ∧ root ++ s.source_base ++ e ≠ ssAbsDir s'.root_dir s'
       ∧ root <+: root ++ s.source_base ++ e
       ∧ root ≠ root ++ s.source_base ++ e)

/-- The monotonic-per-target characterization of `has_tests`. -/
def HasTestsInv (cfg : ProjectCfg) (st : CState) : Prop :=
  st.has_tests = st.analyzed.any (fun t => (cfg.info t).is_test)

/-- Equality of configuration states up to the class-level shared
`TEST_BASES` set — the only state that differs between a fresh first and a
fresh second invocation in the same process. -/
def eqExceptTB (s1 s2 : CState) : Prop :=
  s1.analyzed = s2.analyzed ∧ s1.targeted = s2.targeted ∧ s1.sources = s2.sources ∧
  s1.resource_extensions = s2.resource_extensions ∧ s1.has_scala = s2.has_scala ∧
  s1.has_tests = s2.has_tests

/-! ### Theorems -/

theorem mem_ordAdd [DecidableEq α] (l : List α) (a x : α) :
    x ∈ ordAdd l a ↔ x ∈ l ∨ x = a := by
  unfold ordAdd
  split
  · constructor
    · exact Or.inl
    · rintro (h | rfl) <;> assumption
  · simp

theorem mem_ordAdd_self [DecidableEq α] (l : List α) (a : α) : a ∈ ordAdd l a := by
  rw [mem_ordAdd]; exact Or.inr rfl

theorem mem_ordAdd_of_mem [DecidableEq α] (l : List α) (a x : α) (h : x ∈ l) :
    x ∈ ordAdd l a := by
  rw [mem_ordAdd]; exact Or.inl h

theorem mem_ordAddAll_of_mem [DecidableEq α] (l l' : List α) (x : α) (h : x ∈ l) :
    x ∈ ordAddAll l l' := by
  induction l' generalizing l with
  | nil => exact h
  | cons a t ih => exact ih (ordAdd l a) (mem_ordAdd_of_mem l a x h)

theorem mem_ordDedup [DecidableEq α] (l : List α) (x : α) :
    x ∈ ordDedup l ↔ x ∈ l := by
  unfold ordDedup
  suffices h : ∀ acc : List α, x ∈ ordAddAll acc l ↔ x ∈ acc ∨ x ∈ l by
    simpa using h []
  induction l with
  | nil => intro acc; simp [ordAddAll]
  | cons a t ih =>
    intro acc
    show x ∈ ordAddAll (ordAdd acc a) t ↔ _
    rw [ih (ordAdd acc a), mem_ordAdd]
    simp only [List.mem_cons]
    tauto

theorem unexLoop_nil (root : FsPath) (acc : List FsPath) :
    unexLoop root [] acc = if [] = root then some (ordAdd acc []) else none := rfl

theorem unexLoop_concat (root : FsPath) (q : FsPath) (a : String) (acc : List FsPath) :
    unexLoop root (q ++ [a]) acc =
      if q = root then some (ordAdd acc (q ++ [a]))
      else unexLoop root q (ordAdd acc (q ++ [a])) := by
  show unexLoopGo root ((q ++ [a]).length + 1) (q ++ [a]) acc = _
  have hlen : (q ++ [a]).length + 1 = q.length + 1 + 1 := by simp
  rw [hlen]
  show (if (q ++ [a]).dropLast = root then some (ordAdd acc (q ++ [a]))
        else if q ++ [a] = [] then none
        else unexLoopGo root (q.length + 1) ((q ++ [a]).dropLast) (ordAdd acc (q ++ [a]))) = _
  rw [List.dropLast_concat]
  split_ifs with h1 h2
  · rfl
  · exact absurd h2 (by simp)
  · rfl

/-! ### C1: ambiguity detection in `map_internal_jars` -/

theorem mapJarsTarget_err (jar_dir src_dir : FsPath) (t : TargetId)
    (src_mappings : List (FsPath × List String)) :
    ∀ (prim : List (FsPath × List String)) (st : Staged),
      (∃ pr ∈ prim, pr.2.length ≠ 1) →
      (mapJarsTarget jar_dir src_dir t src_mappings prim st).2.isSome = true := by
  intro prim
  induction prim with
  | nil => rintro st ⟨pr, hpr, -⟩; exact absurd hpr (List.not_mem_nil pr)
  | cons hd rest ih =>
    rintro st ⟨pr, hpr, hlen⟩
    obtain ⟨base, jars⟩ := hd
    by_cases hj : jars.length ≠ 1
    · simp [mapJarsTarget, hj]
    · have hpr' : pr ∈ rest := by
        rcases List.mem_cons.mp hpr with h | h
        · subst h; simp only at hlen; exact absurd hlen hj
        · exact h
      simp only [mapJarsTarget, hj, if_false]
      rcases hInner : (if src_mappings.isEmpty then
          (st.copies ++ [(base ++ [jars.headD ""], jar_dir ++ [jars.headD ""])], none, none)
        else copySourceJars src_dir t src_mappings
          (st.copies ++ [(base ++ [jars.headD ""], jar_dir ++ [jars.headD ""])]) none) with
        ⟨copies', cps, err⟩
      cases err with
      | none => simpa [hInner] using ih _ ⟨pr, hpr', hlen⟩
      | some e => simp [hInner]

theorem mapJarsTargets_err (jar_dir src_dir : FsPath)
    (internal_jars internal_source_jars : TargetId → List (FsPath × List String)) :
    ∀ (targets : List TargetId) (st : Staged),
      (∃ t ∈ targets, ∃ pr ∈ internal_jars t, pr.2.length ≠ 1) →
      (mapJarsTargets jar_dir src_dir internal_jars internal_source_jars targets st).2.isSome
        = true := by
  intro targets
  induction targets with
  | nil => rintro st ⟨t, ht, -⟩; exact absurd ht (List.not_mem_nil t)
  | cons t0 rest ih =>
    rintro st ⟨t, ht, pr, hpr, hlen⟩
    by_cases hemp : (internal_jars t0).isEmpty
    · have ht' : t ∈ rest := by
        rcases List.mem_cons.mp ht with h | h
        · subst h
          rw [List.isEmpty_iff] at hemp
          rw [hemp] at hpr
          exact absurd hpr (List.not_mem_nil pr)
        · exact h
      simpa [mapJarsTargets, hemp] using ih st ⟨t, ht', pr, hpr, hlen⟩
    · simp only [mapJarsTargets, hemp, if_false]
      rcases hrun : mapJarsTarget jar_dir src_dir t0 (internal_source_jars t0)
          (internal_jars t0) st with ⟨st', err⟩
      cases err with
      | none =>
        rcases List.mem_cons.mp ht with h | h
        · subst h
          have := mapJarsTarget_err jar_dir src_dir t (internal_source_jars t)
            (internal_jars t) st ⟨pr, hpr, hlen⟩
          rw [hrun] at this
          simpa using this
        · simpa [hrun] using ih st' ⟨t, h, pr, hpr, hlen⟩
      | some e => simp [hrun]

/-- C1 (amended).  If some `(target, base)` pair of the primary internal-jar
product mapping holds more than one artifact, `map_internal_jars` raises the
ambiguous-mapping `TaskError`; the files staged for `(target, base)` pairs
processed before the offending pair remain, and when the very first processed
pair is the ambiguous one, zero files have been copied. -/
theorem map_internal_jars_ambiguity_aborts :
    (∀ (work_dir : FsPath) (targets : List TargetId)
       (internal_jars internal_source_jars : TargetId → List (FsPath × List String))
       (t : TargetId) (pr : FsPath × List String),
       t ∈ targets → pr ∈ internal_jars t → 1 < pr.2.length →
       (map_internal_jars work_dir targets internal_jars internal_source_jars).2.isSome = true)
    ∧ (∀ (work_dir : FsPath) (t : TargetId) (rest : List TargetId)
         (internal_jars internal_source_jars : TargetId → List (FsPath × List String))
         (base : FsPath) (jars : List String) (prim : List (FsPath × List String)),
         internal_jars t = (base, jars) :: prim → 1 < jars.length →
         map_internal_jars work_dir (t :: rest) internal_jars internal_source_jars =
           (⟨[], []⟩, some ("Unexpected mapping, multiple jars for " ++ toString t))) := by
  constructor
  · intro work_dir targets ij isj t pr ht hpr hlen
    exact mapJarsTargets_err _ _ ij isj targets ⟨[], []⟩ ⟨t, ht, pr, hpr, by omega⟩
  · intro work_dir t rest ij isj base jars prim hij hlen
    have hj : jars.length ≠ 1 := by omega
    have hne : ¬ (ij t).isEmpty := by simp [hij]
    simp [map_internal_jars, mapJarsTargets, hne, hij, mapJarsTarget, hj]

/-- C1 witness: a concrete run with a single target whose only mapping pair
holds two jars raises the error. -/
theorem map_internal_jars_ambiguity_aborts_witness :
    (map_internal_jars ["w"] [1]
      (fun _ => [(["b1"], ["x1.jar", "x2.jar"])]) (fun _ => [])).2.isSome = true :=
  map_internal_jars_ambiguity_aborts.1 ["w"] [1]
    (fun _ => [(["b1"], ["x1.jar", "x2.jar"])]) (fun _ => [])
    1 (["b1"], ["x1.jar", "x2.jar"]) (by decide) (by decide) (by decide)

/-- C1 counterexample: with a first target staged successfully and a second
target carrying an ambiguous mapping, `map_internal_jars` raises the
`TaskError` while one file has already been copied into the staging
directory — the claim's "zero partial staging output, for every input" is
false. -/
theorem map_internal_jars_staged_error_eval :
    (map_internal_jars ["w"] [0, 1]
      (fun t => if t = 0 then [(["b0"], ["a.jar"])]
                else if t = 1 then [(["b1"], ["x1.jar", "x2.jar"])] else [])
      (fun _ => [])).2.isSome = true
    ∧ (map_internal_jars ["w"] [0, 1]
        (fun t => if t = 0 then [(["b0"], ["a.jar"])]
                  else if t = 1 then [(["b1"], ["x1.jar", "x2.jar"])] else [])
        (fun _ => [])).1.copies =
      [(["b0", "a.jar"], ["w", "internal-libs", "a.jar"])] := by
  constructor <;> decide

/-! ### C10: termination of the unexcludable-ancestor loop -/

theorem unexLoop_isSome (root : FsPath) (hroot : root ≠ []) :
    ∀ (p : FsPath) (acc : List FsPath),
      (unexLoop root p acc).isSome = true ↔ (root <+: p ∧ root ≠ p) := by
  intro p
  induction p using List.reverseRecOn with
  | nil =>
    intro acc
    rw [unexLoop_nil]
    split_ifs with h1
    · exact absurd h1.symm hroot
    · simp [List.prefix_nil, hroot]
  | append_singleton q a ih =>
    intro acc
    rw [unexLoop_concat]
    split_ifs with hq
    · subst hq
      simp only [Option.isSome_some, true_iff]
      refine ⟨List.prefix_append q [a], ?_⟩
      intro h
      have h2 := congrArg List.length h
      simp at h2
    · rw [ih]
      constructor
      · rintro ⟨hpre, hne⟩
        refine ⟨hpre.trans (List.prefix_append q [a]), ?_⟩
        intro h
        have h1 := hpre.length_le
        have h2 := congrArg List.length h
        simp at h2
        omega
      · rintro ⟨hpre, hne⟩
        have hle : root.length ≤ q.length + 1 := by
          have h1 := hpre.length_le
          simpa using h1
        have hlen : root.length ≤ q.length := by
          rcases Nat.lt_or_ge root.length (q.length + 1) with h | h
          · omega
          · exfalso
            have heq : root.length = (q ++ [a]).length := by simp; omega
            exact hne (List.IsPrefix.eq_of_length hpre heq)
        have htake : root = q.take root.length := by
          have h0 := List.prefix_iff_eq_take.mp hpre
          rw [h0, List.take_append_eq_append_take]
          rw [Nat.sub_eq_zero_of_le hlen]
          simp
        exact ⟨htake ▸ List.take_prefix root.length q, fun h => hq h.symm⟩

/-- C10: the ancestor-accumulation loop of the exclude computation terminates
(`some`) exactly when the walked path lies strictly beneath the project root;
for any other path — the project root itself or a path outside the root — it
never reaches the termination condition (`none`, modelling the Python loop
spinning on the `os.path.split` fixed point).  In particular, for a source
set it terminates iff the set's absolute owned directory is a strict
descendant of `root_dir`. -/
theorem unexLoop_terminates_iff (root : FsPath) (h : root ≠ []) :
    (∀ p : FsPath, (unexLoop root p []).isSome = true ↔ (root <+: p ∧ root ≠ p))
    ∧ (∀ s : SourceSetL,
        (unexLoop root (ssAbsDir root s) []).isSome = true ↔ ssAbsDir root s ≠ root) := by
  constructor
  · intro p; exact unexLoop_isSome root h p []
  · intro s
    rw [unexLoop_isSome root h (ssAbsDir root s) []]
    have hpre : root <+: ssAbsDir root s := by
      unfold ssAbsDir
      rw [List.append_assoc]
      exact List.prefix_append root _
    constructor
    · rintro ⟨-, hne⟩; exact fun hh => hne hh.symm
    · intro hne; exact ⟨hpre, fun hh => hne hh.symm⟩

/-- C10 witness: with concrete project root `r`, the loop terminates on the
strict descendant `r/a` and the iff instantiates. -/
theorem unexLoop_terminates_iff_witness :
    (["r"] : FsPath) ≠ [] ∧
      ((unexLoop ["r"] ["r", "a"] []).isSome = true ↔
        ((["r"] : FsPath) <+: ["r", "a"] ∧ (["r"] : FsPath) ≠ ["r", "a"])) :=
  ⟨by decide, (unexLoop_terminates_iff ["r"] (by decide)).1 ["r", "a"]⟩

/-! ### Invariants of the configuration phase -/

theorem foldl_inv {σ α : Type _} (Inv : σ → Prop) (f : σ → α → σ)
    (l : List α) (st : σ) (h : Inv st) (step : ∀ st a, Inv st → Inv (f st a)) :
    Inv (List.foldl f st l) := by
  induction l generalizing st with
  | nil => exact h
  | cons a t ih => exact ih (f st a) (step st a h)

theorem foldl_rel {σ α : Type _} (R : σ → σ → Prop) (f : σ → α → σ)
    (l : List α) (s1 s2 : σ) (h : R s1 s2) (step : ∀ s1 s2 a, R s1 s2 → R (f s1 a) (f s2 a)) :
    R (List.foldl f s1 l) (List.foldl f s2 l) := by
  induction l generalizing s1 s2 with
  | nil => exact h
  | cons a t ih => exact ih (f s1 a) (f s2 a) (step s1 s2 a h)

theorem SourceSetInit_fst (rd sb : FsPath) (p : Option FsPath) (it : Bool)
    (tb : List FsPath) : (SourceSetInit rd sb p it tb).1 = ⟨rd, sb, p, it, []⟩ := rfl

theorem SourceSetInit_snd (rd sb : FsPath) (p : Option FsPath) (it : Bool)
    (tb : List FsPath) :
    (SourceSetInit rd sb p it tb).2 = if it then ordAdd tb sb else tb := rfl

theorem cssStep_good (cfg : ProjectCfg) (rb : FsPath) (it : Bool)
    (st : CState) (p : FsPath) (h : GoodState cfg.root_dir st) :
    GoodState cfg.root_dir (cssStep cfg rb it st p) := by
  obtain ⟨hsync, hpw, hcfg⟩ := h
  unfold cssStep
  by_cases hmem : cfg.root_dir ++ rb ++ p ∈ st.targeted
  · rw [if_pos hmem]
    exact ⟨hsync, hpw, hcfg⟩
  · rw [if_neg hmem]
    have habs : ssAbsDir cfg.root_dir (SourceSetInit cfg.root_dir rb (some p) it st.test_bases).1 =
        cfg.root_dir ++ rb ++ p := rfl
    refine ⟨?_, ?_, ?_⟩
    · intro D
      simp only [List.mem_append, List.mem_singleton]
      constructor
      · rintro (hD | rfl)
        · obtain ⟨s, hs, hd⟩ := (hsync D).mp hD
          exact ⟨s, Or.inl hs, hd⟩
        · exact ⟨_, Or.inr rfl, habs⟩
      · rintro ⟨s, hs | rfl, hd⟩
        · exact Or.inl ((hsync D).mpr ⟨s, hs, hd⟩)
        · exact Or.inr (by rw [← hd, habs])
    · rw [List.pairwise_append]
      refine ⟨hpw, List.pairwise_singleton _ _, ?_⟩
      intro a ha b hb
      rw [List.mem_singleton] at hb
      subst hb
      rw [habs]
      intro hEq
      exact hmem ((hsync _).mpr ⟨a, ha, hEq⟩)
    · intro s hs
      rcases List.mem_append.mp hs with hs | hs
      · exact hcfg s hs
      · rw [List.mem_singleton] at hs
        subst hs
        exact ⟨by rw [SourceSetInit_fst]; simp, rfl, rfl⟩

theorem configure_source_sets_good (cfg : ProjectCfg) (rb : FsPath)
    (srcs : List SourceFile) (it : Bool) (st : CState) (h : GoodState cfg.root_dir st) :
    GoodState cfg.root_dir (configure_source_sets cfg rb srcs it st) :=
  foldl_inv _ _ _ st h (fun st p hp => cssStep_good cfg rb it st p hp)

theorem configureResourcesStep_good (cfg : ProjectCfg) (st : CState)
    (bp : FsPath × List SourceFile) (h : GoodState cfg.root_dir st) :
    GoodState cfg.root_dir (configureResourcesStep cfg st bp) :=
  configure_source_sets_good cfg bp.1 bp.2 false _ h

theorem configureTargetResources_good (cfg : ProjectCfg) (ti : TargetInfo) (st : CState)
    (h : GoodState cfg.root_dir st) :
    GoodState cfg.root_dir (configureTargetResources cfg ti st) := by
  unfold configureTargetResources
  split_ifs
  · exact foldl_inv _ _ _ _ h (fun st bp hp => configureResourcesStep_good cfg st bp hp)
  · exact h

theorem configureTargetSources_good (cfg : ProjectCfg) (ti : TargetInfo) (st : CState)
    (h : GoodState cfg.root_dir st) :
    GoodState cfg.root_dir (configureTargetSources cfg ti st) := by
  unfold configureTargetSources
  split_ifs
  · exact configure_source_sets_good cfg _ _ _ _ h
  · exact h

theorem configureTargetState_good (cfg : ProjectCfg) (t : TargetId) (st : CState)
    (h : GoodState cfg.root_dir st) :
    GoodState cfg.root_dir (configureTargetState cfg t st) :=
  configureTargetSources_good cfg (cfg.info t) _
    (configureTargetResources_good cfg (cfg.info t) _ h)

theorem configure_target_good (cfg : ProjectCfg) (t : TargetId) (st : CState)
    (h : GoodState cfg.root_dir st) :
    GoodState cfg.root_dir (configure_target cfg t st).1 := by
  unfold configure_target
  split_ifs
  · exact h
  · exact configureTargetState_good cfg t st h

theorem walkWork_good (cfg : ProjectCfg) :
    ∀ (fuel : Nat) (wl visited : List TargetId) (st : CState),
      GoodState cfg.root_dir st →
      GoodState cfg.root_dir (walkWork cfg fuel wl visited st).2 := by
  intro fuel
  induction fuel with
  | zero => intro wl visited st h; simpa [walkWork] using h
  | succ n ih =>
    intro wl visited st h
    cases wl with
    | nil => simpa [walkWork] using h
    | cons t rest =>
      by_cases hv : t ∈ visited
      · simpa only [walkWork, hv, if_true] using ih rest visited st h
      · simp only [walkWork, hv, if_false]
        by_cases hst : source_target cfg t
        · simp only [hst, if_true]
          exact ih _ _ _ (configure_target_good cfg t st h)
        · simp only [hst, if_false]
          exact ih _ _ _ h

theorem runWalks_good (cfg : ProjectCfg) (fuel : Nat) (st0 : CState)
    (h : GoodState cfg.root_dir st0) :
    GoodState cfg.root_dir (runWalks cfg fuel st0) :=
  foldl_inv _ _ _ st0 h (fun st t hp => walkWork_good cfg fuel [t] [] st hp)

theorem goodState_init (root : FsPath) (tb : List FsPath) :
    GoodState root ⟨[], [], [], [], false, false, tb⟩ := by
  refine ⟨?_, List.Pairwise.nil, ?_⟩
  · intro D; simp
  · intro s hs; exact absurd hs (List.not_mem_nil s)

theorem prefix_concat_cases {α : Type _} (l1 l2 : List α) (a : α) (h : l1 <+: l2 ++ [a]) :
    l1 = l2 ++ [a] ∨ l1 <+: l2 := by
  rcases Nat.lt_or_ge l1.length (l2 ++ [a]).length with hl | hl
  · right
    have hle : l1.length ≤ l2.length := by simp at hl; omega
    have h0 := List.prefix_iff_eq_take.mp h
    rw [List.take_append_eq_append_take, Nat.sub_eq_zero_of_le hle] at h0
    simp at h0
    rw [h0]
    exact List.take_prefix _ _
  · left
    exact List.IsPrefix.eq_of_length h (le_antisymm h.length_le hl)

theorem prefix_append_drop {α : Type _} (b c : List α) (h : b <+: c) :
    b ++ c.drop b.length = c := by
  obtain ⟨t, rfl⟩ := h
  rw [List.drop_left]

theorem unexLoop_some_sub (root : FsPath) :
    ∀ (p : FsPath) (acc l : List FsPath), unexLoop root p acc = some l →
      ∀ x, x ∈ acc → x ∈ l := by
  intro p
  induction p using List.reverseRecOn with
  | nil =>
    intro acc l hres x hx
    rw [unexLoop_nil] at hres
    split_ifs at hres with h1
    · cases hres
      exact mem_ordAdd_of_mem acc [] x hx
  | append_singleton q a ih =>
    intro acc l hres x hx
    rw [unexLoop_concat] at hres
    split_ifs at hres with h1
    · cases hres
      exact mem_ordAdd_of_mem acc (q ++ [a]) x hx
    · exact ih _ l hres x (mem_ordAdd_of_mem acc (q ++ [a]) x hx)

theorem unexLoop_mem_chain (root : FsPath) :
    ∀ (p : FsPath) (acc l : List FsPath), unexLoop root p acc = some l →
      ∀ q, q <+: p → root <+: q → q ≠ root → q ∈ l := by
  intro p
  induction p using List.reverseRecOn with
  | nil =>
    intro acc l hres q hq hroot hne
    have hq' : q = [] := List.prefix_nil.mp hq
    subst hq'
    exact absurd (List.prefix_nil.mp hroot).symm hne
  | append_singleton q0 a ih =>
    intro acc l hres q hq hroot hne
    rw [unexLoop_concat] at hres
    split_ifs at hres with h1
    · cases hres
      rcases prefix_concat_cases q q0 a hq with rfl | hq'
      · exact mem_ordAdd_self acc (q0 ++ [a])
      · exfalso
        subst h1
        exact hne (List.IsPrefix.eq_of_length hroot
          (le_antisymm hroot.length_le hq'.length_le)).symm
    · rcases prefix_concat_cases q q0 a hq with rfl | hq'
      · exact unexLoop_some_sub root q0 _ l hres _ (mem_ordAdd_self acc (q0 ++ [a]))
      · exact ih _ l hres q hq' hroot hne

theorem build_unexcludable_sub (root : FsPath) :
    ∀ (sets : List SourceSetL) (acc u : List FsPath),
      build_unexcludable root sets acc = some u → ∀ x, x ∈ acc → x ∈ u := by
  intro sets
  induction sets with
  | nil =>
    intro acc u hres x hx
    cases hres
    exact hx
  | cons s rest ih =>
    intro acc u hres x hx
    unfold build_unexcludable at hres
    rcases hu : unexLoop root (root ++ s.source_base ++ s.path.getD []) acc with - | acc'
    · rw [hu] at hres; cases hres
    · rw [hu] at hres
      exact ih acc' u hres x (unexLoop_some_sub root _ acc acc' hu x hx)

theorem build_unexcludable_mem (root : FsPath) :
    ∀ (sets : List SourceSetL) (acc u : List FsPath),
      build_unexcludable root sets acc = some u →
      ∀ s, s ∈ sets → ∀ q, q <+: ssAbsDir root s → root <+: q → q ≠ root → q ∈ u := by
  intro sets
  induction sets with
  | nil =>
    intro acc u hres s hs
    exact absurd hs (List.not_mem_nil s)
  | cons s0 rest ih =>
    intro acc u hres s hs q hq hroot hne
    unfold build_unexcludable at hres
    rcases hu : unexLoop root (root ++ s0.source_base ++ s0.path.getD []) acc with - | acc'
    · rw [hu] at hres; cases hres
    · rw [hu] at hres
      rcases List.mem_cons.mp hs with rfl | hs'
      · have hqin : q ∈ acc' := unexLoop_mem_chain root _ acc acc' hu q hq hroot hne
        exact build_unexcludable_sub root rest acc' u hres q hqin
      · exact ih acc' u hres s hs' q hq hroot hne

theorem computeExcludes_root_dir (root : FsPath) (fs unex targeted : List FsPath)
    (s : SourceSetL) : (computeExcludes root fs unex targeted s).root_dir = s.root_dir := rfl

theorem computeExcludes_source_base (root : FsPath) (fs unex targeted : List FsPath)
    (s : SourceSetL) :
    (computeExcludes root fs unex targeted s).source_base = s.source_base := rfl

theorem computeExcludes_path (root : FsPath) (fs unex targeted : List FsPath)
    (s : SourceSetL) : (computeExcludes root fs unex targeted s).path = s.path := rfl

theorem computeExcludes_is_test (root : FsPath) (fs unex targeted : List FsPath)
    (s : SourceSetL) : (computeExcludes root fs unex targeted s).is_test = s.is_test := rfl

/-- Where an exclude entry comes from: a directory of the snapshot strictly
below the set's directory, not targeted, not unexcludable, recorded relative
to `root_dir ++ source_base`. -/
theorem computeExcludes_mem (root : FsPath) (fs unex targeted : List FsPath)
    (s : SourceSetL) (e : FsPath) (he : e ∈ (computeExcludes root fs unex targeted s).excludes) :
    ∃ child, child ∈ fs ∧ ((root ++ s.source_base) ++ s.path.getD []) <+: child ∧
      child ≠ (root ++ s.source_base) ++ s.path.getD [] ∧
      child ∉ targeted ∧ child ∉ unex ∧ e = child.drop (root ++ s.source_base).length ∧
      root ++ s.source_base ++ e = child := by
  unfold computeExcludes at he
  rw [List.mem_map] at he
  obtain ⟨child, hc2, hrel⟩ := he
  rw [List.mem_filter] at hc2
  obtain ⟨hc1, hu⟩ := hc2
  rw [List.mem_filter] at hc1
  obtain ⟨hc0, ht⟩ := hc1
  rw [mem_ordDedup] at hc0
  unfold fsWalkDirs at hc0
  rw [List.mem_filter] at hc0
  obtain ⟨hfs, hcond⟩ := hc0
  simp only [Bool.and_eq_true, decide_eq_true_eq] at hcond
  obtain ⟨hpre, hne⟩ := hcond
  simp only [Bool.not_eq_true', decide_eq_false_iff_not] at hu ht
  have hbase : (root ++ s.source_base) <+: child :=
    (List.prefix_append (root ++ s.source_base) (s.path.getD [])).trans hpre
  subst hrel
  refine ⟨child, hfs, hpre, hne, ht, hu, rfl, ?_⟩
  exact prefix_append_drop _ child hbase

theorem extendExtras_fst (br : FsPath) (it : Bool) :
    ∀ (ps : List FsPath) (acc : List SourceSetL × List FsPath),
      (extendExtras br ps it acc).1 =
        acc.1 ++ ps.map (fun p => (⟨br, p, none, it, []⟩ : SourceSetL)) := by
  intro ps
  induction ps with
  | nil => intro acc; simp [extendExtras]
  | cons p rest ih =>
    intro acc
    have hstep : extendExtras br (p :: rest) it acc =
        extendExtras br rest it
          (acc.1 ++ [(SourceSetInit br p none it acc.2).1],
           (SourceSetInit br p none it acc.2).2) := rfl
    rw [hstep, ih, SourceSetInit_fst]
    simp

theorem extendExtras_snd_mem (br : FsPath) (it : Bool) :
    ∀ (ps : List FsPath) (acc : List SourceSetL × List FsPath) (x : FsPath),
      x ∈ acc.2 → x ∈ (extendExtras br ps it acc).2 := by
  intro ps
  induction ps with
  | nil => intro acc x hx; exact hx
  | cons p rest ih =>
    intro acc x hx
    have hstep : extendExtras br (p :: rest) it acc =
        extendExtras br rest it
          (acc.1 ++ [(SourceSetInit br p none it acc.2).1],
           (SourceSetInit br p none it acc.2).2) := rfl
    rw [hstep]
    apply ih
    show x ∈ (SourceSetInit br p none it acc.2).2
    rw [SourceSetInit_snd]
    split_ifs
    · exact mem_ordAdd_of_mem acc.2 p x hx
    · exact hx

/-- Destructuring of a successful `configure_jvm` run into its phases. -/
theorem configure_jvm_some (cfg : ProjectCfg) (fs : List FsPath) (fuel : Nat)
    (es et tb : List FsPath) (r : JvmResult)
    (hres : configure_jvm cfg fs fuel es et tb = some r) :
    ∃ unex, build_unexcludable cfg.root_dir
        (runWalks cfg fuel ⟨[], [], [], [], false, false, tb⟩).sources [] = some unex ∧
      r.sources = (runWalks cfg fuel ⟨[], [], [], [], false, false, tb⟩).sources.map
          (computeExcludes cfg.root_dir fs unex
            (runWalks cfg fuel ⟨[], [], [], [], false, false, tb⟩).targeted)
        ++ es.map (fun p => (⟨cfg.buildroot, p, none, false, []⟩ : SourceSetL))
        ++ et.map (fun p => (⟨cfg.buildroot, p, none, true, []⟩ : SourceSetL)) ∧
      r.targeted = (runWalks cfg fuel ⟨[], [], [], [], false, false, tb⟩).targeted ∧
      r.analyzed = (runWalks cfg fuel ⟨[], [], [], [], false, false, tb⟩).analyzed ∧
      r.has_tests = (runWalks cfg fuel ⟨[], [], [], [], false, false, tb⟩).has_tests ∧
      r.targets = resultTargets cfg fuel
        (runWalks cfg fuel ⟨[], [], [], [], false, false, tb⟩).analyzed ∧
      r.walked_dirs = (runWalks cfg fuel ⟨[], [], [], [], false, false, tb⟩).sources.map
        (fun s => ssAbsDir cfg.root_dir s) ∧
      (∀ x, x ∈ (runWalks cfg fuel ⟨[], [], [], [], false, false, tb⟩).test_bases →
        x ∈ r.test_bases) := by
  simp only [configure_jvm] at hres
  rcases hbu : build_unexcludable cfg.root_dir
      (runWalks cfg fuel ⟨[], [], [], [], false, false, tb⟩).sources [] with - | unex
  · rw [hbu] at hres
    exact Option.noConfusion hres
  · rw [hbu] at hres
    have hr := Option.some.inj hres
    refine ⟨unex, rfl, ?_⟩
    subst hr
    refine ⟨?_, rfl, rfl, rfl, rfl, rfl, ?_⟩
    · show (extendExtras cfg.buildroot et true (extendExtras cfg.buildroot es false _)).1 = _
      rw [extendExtras_fst, extendExtras_fst]
    · intro x hx
      show x ∈ (extendExtras cfg.buildroot et true (extendExtras cfg.buildroot es false _)).2
      exact extendExtras_snd_mem _ _ et _ x (extendExtras_snd_mem _ _ es _ x hx)

/-! ### C3: a registered owned directory is never excluded -/

/-- C3: after `configure_jvm` completes, no directory registered as a source
set's owned path (a member of `targeted`, equivalently the owned directory of
a configured source set — one whose `path` is a string) ever appears in any
source set's excludes: the absolute directory named by an exclude entry is
distinct from every registered directory and from every configured set's
owned directory. -/
theorem configure_jvm_owned_never_excluded (cfg : ProjectCfg) (fs : List FsPath)
    (fuel : Nat) (es et tb : List FsPath) (r : JvmResult)
    (hres : configure_jvm cfg fs fuel es et tb = some r) :
    ∀ s, s ∈ r.sources → ∀ e, e ∈ s.excludes →
      (∀ D, D ∈ r.targeted → cfg.root_dir ++ s.source_base ++ e ≠ D)
      ∧ (∀ s', s' ∈ r.sources → s'.path ≠ none →
          cfg.root_dir ++ s.source_base ++ e ≠ ssAbsDir s'.root_dir s') := by
  intro s hs e he
  obtain ⟨unex, hbu, hsrc, htg, -, -, -, -⟩ :=
    configure_jvm_some cfg fs fuel es et tb r hres
  obtain ⟨hsync, hpw, hcfg⟩ :=
    runWalks_good cfg fuel _ (goodState_init cfg.root_dir tb)
  rw [hsrc] at hs
  rcases List.mem_append.mp hs with hs1 | hs2
  rcases List.mem_append.mp hs1 with hsm | hse
  · obtain ⟨s0, hs0, rfl⟩ := List.mem_map.mp hsm
    obtain ⟨child, hfs, hpre, hneq, hnt, hnu, hdrop, hjoin⟩ :=
      computeExcludes_mem cfg.root_dir fs unex _ s0 e he
    rw [computeExcludes_source_base]
    rw [hjoin]
    constructor
    · intro D hD hEq
      rw [htg] at hD
      rw [hEq] at hnt
      exact hnt hD
    · intro s' hs' hp' hEq
      rw [hsrc] at hs'
      rcases List.mem_append.mp hs' with hs1' | hs2'
      rcases List.mem_append.mp hs1' with hsm' | hse'
      · obtain ⟨s0', hs0', rfl⟩ := List.mem_map.mp hsm'
        have hrd : s0'.root_dir = cfg.root_dir := (hcfg s0' hs0').2.1
        have habs' : ssAbsDir (computeExcludes cfg.root_dir fs unex
            (runWalks cfg fuel ⟨[], [], [], [], false, false, tb⟩).targeted s0').root_dir
            (computeExcludes cfg.root_dir fs unex
              (runWalks cfg fuel ⟨[], [], [], [], false, false, tb⟩).targeted s0') =
            ssAbsDir cfg.root_dir s0' := by
          unfold ssAbsDir
          rw [computeExcludes_root_dir, computeExcludes_source_base, computeExcludes_path, hrd]
        rw [habs'] at hEq
        apply hnt
        rw [hEq]
        exact (hsync _).mpr ⟨s0', hs0', rfl⟩
      · obtain ⟨p, -, rfl⟩ := List.mem_map.mp hse'
        exact hp' rfl
      · obtain ⟨p, -, rfl⟩ := List.mem_map.mp hs2'
        exact hp' rfl
  · obtain ⟨p, -, rfl⟩ := List.mem_map.mp hse
    exact absurd he (List.not_mem_nil e)
  · obtain ⟨p, -, rfl⟩ := List.mem_map.mp hs2
    exact absurd he (List.not_mem_nil e)

/-- C3 witness: a concrete project (one target owning `r/src/a`, a stray
on-disk directory `r/src/a/b`) where the computed exclude `a/b` names a
directory distinct from the registered owned directory. -/
theorem configure_jvm_owned_never_excluded_witness :
    configure_jvm
      ⟨["r"], ["r"], true, false, false, [0],
        fun t => if t = 0 then
          ⟨["src"], [⟨["a"], "A.java"⟩], false, false, false, false, false, [], [], []⟩
        else ⟨[], [], false, false, false, false, false, [], [], []⟩⟩
      [["r", "src"], ["r", "src", "a"], ["r", "src", "a", "b"]] 9 [] [] [] =
      some ⟨[⟨["r"], ["src"], some ["a"], false, [["a", "b"]]⟩], [0],
            [["r", "src", "a"]], [0], [], false, false, [], [["r", "src", "a"]]⟩
    ∧ (∀ D, D ∈ [[ "r", "src", "a" ]] →
        (["r"] : FsPath) ++ ["src"] ++ ["a", "b"] ≠ D) := by
  constructor
  · decide
  · have h := configure_jvm_owned_never_excluded
      ⟨["r"], ["r"], true, false, false, [0],
        fun t => if t = 0 then
          ⟨["src"], [⟨["a"], "A.java"⟩], false, false, false, false, false, [], [], []⟩
        else ⟨[], [], false, false, false, false, false, [], [], []⟩⟩
      [["r", "src"], ["r", "src", "a"], ["r", "src", "a", "b"]] 9 [] [] []
      ⟨[⟨["r"], ["src"], some ["a"], false, [["a", "b"]]⟩], [0],
        [["r", "src", "a"]], [0], [], false, false, [], [["r", "src", "a"]]⟩
      (by decide)
      ⟨["r"], ["src"], some ["a"], false, [["a", "b"]]⟩ (by decide)
      ["a", "b"] (by decide)
    exact h.1

/-- C2 (amended): after `configure_jvm` completes, no exclude entry names a
proper ancestor (strictly below the project root) of any directory
*registered* during source-set configuration (a member of `targeted`).  The
restriction to registered directories is forced: a caller-supplied extra root
is appended without registration, and its directory may lie below an already
excluded directory. -/
theorem configure_jvm_registered_ancestor_never_excluded (cfg : ProjectCfg)
    (fs : List FsPath) (fuel : Nat) (es et tb : List FsPath) (r : JvmResult)
    (hres : configure_jvm cfg fs fuel es et tb = some r) :
    ∀ s, s ∈ r.sources → ∀ e, e ∈ s.excludes → ∀ D, D ∈ r.targeted →
      ¬ (cfg.root_dir ++ s.source_base ++ e <+: D
         ∧ cfg.root_dir ++ s.source_base ++ e ≠ D
         ∧ cfg.root_dir <+: cfg.root_dir ++ s.source_base ++ e
         ∧ cfg.root_dir ≠ cfg.root_dir ++ s.source_base ++ e) := by
  intro s hs e he D hD hbad
  obtain ⟨unex, hbu, hsrc, htg, -, -, -, -⟩ :=
    configure_jvm_some cfg fs fuel es et tb r hres
  obtain ⟨hsync, hpw, hcfg⟩ :=
    runWalks_good cfg fuel _ (goodState_init cfg.root_dir tb)
  rw [hsrc] at hs
  rcases List.mem_append.mp hs with hs1 | hs2
  rcases List.mem_append.mp hs1 with hsm | hse
  · obtain ⟨s0, hs0, rfl⟩ := List.mem_map.mp hsm
    obtain ⟨child, hfs, hpre, hneq, hnt, hnu, hdrop, hjoin⟩ :=
      computeExcludes_mem cfg.root_dir fs unex _ s0 e he
    rw [computeExcludes_source_base, hjoin] at hbad
    obtain ⟨hpreD, hneD, hrootpre, hrootne⟩ := hbad
    rw [htg] at hD
    obtain ⟨s1, hs1', habs1⟩ := (hsync D).mp hD
    apply hnu
    exact build_unexcludable_mem cfg.root_dir _ [] unex hbu s1 hs1' child
      (by rw [habs1]; exact hpreD) hrootpre (fun h => hrootne h.symm)
  · obtain ⟨p, -, rfl⟩ := List.mem_map.mp hse
    exact absurd he (List.not_mem_nil e)
  · obtain ⟨p, -, rfl⟩ := List.mem_map.mp hs2
    exact absurd he (List.not_mem_nil e)

/-- C2 counterexample: with one target owning `r/src`, stray directories
`r/src/a` and `r/src/a/b` on disk, and caller-supplied extra source root
`src/a/b`, the computed exclude `a` of the `src` source set (absolute
`r/src/a`) is a proper ancestor, strictly below the project root, of the
extra source set's owned directory `r/src/a/b` — the claim as stated over
all source sets is false. -/
theorem configure_jvm_ancestor_claim_counterexample :
    configure_jvm
      ⟨["r"], ["r"], true, false, false, [0],
        fun t => if t = 0 then
          ⟨["src"], [⟨[], "A.java"⟩], false, false, false, false, false, [], [], []⟩
        else ⟨[], [], false, false, false, false, false, [], [], []⟩⟩
      [["r", "src"], ["r", "src", "a"], ["r", "src", "a", "b"]] 9
      [["src", "a", "b"]] [] [] =
      some ⟨[⟨["r"], ["src"], some [], false, [["a"], ["a", "b"]]⟩,
             ⟨["r"], ["src", "a", "b"], none, false, []⟩], [0],
            [["r", "src"]], [0], [], false, false, [], [["r", "src"]]⟩
    ∧ ¬ ancestorSafe ["r"]
        ⟨[⟨["r"], ["src"], some [], false, [["a"], ["a", "b"]]⟩,
          ⟨["r"], ["src", "a", "b"], none, false, []⟩], [0],
         [["r", "src"]], [0], [], false, false, [], [["r", "src"]]⟩ := by
  constructor
  · decide
  · intro hsafe
    exact hsafe ⟨["r"], ["src"], some [], false, [["a"], ["a", "b"]]⟩ (by decide)
      ["a"] (by decide) ⟨["r"], ["src", "a", "b"], none, false, []⟩ (by decide)
      (by decide)

/-- C2 witness: the amended theorem instantiated on the same concrete run,
for the registered directory `r/src`. -/
theorem configure_jvm_registered_ancestor_never_excluded_witness :
    ¬ ((["r"] : FsPath) ++ ["src"] ++ ["a"] <+: ["r", "src"]
       ∧ (["r"] : FsPath) ++ ["src"] ++ ["a"] ≠ ["r", "src"]
       ∧ (["r"] : FsPath) <+: ["r"] ++ ["src"] ++ ["a"]
       ∧ (["r"] : FsPath) ≠ ["r"] ++ ["src"] ++ ["a"]) :=
  configure_jvm_registered_ancestor_never_excluded
    ⟨["r"], ["r"], true, false, false, [0],
      fun t => if t = 0 then
        ⟨["src"], [⟨[], "A.java"⟩], false, false, false, false, false, [], [], []⟩
      else ⟨[], [], false, false, false, false, false, [], [], []⟩⟩
    [["r", "src"], ["r", "src", "a"], ["r", "src", "a", "b"]] 9
    [["src", "a", "b"]] [] []
    ⟨[⟨["r"], ["src"], some [], false, [["a"], ["a", "b"]]⟩,
      ⟨["r"], ["src", "a", "b"], none, false, []⟩], [0],
     [["r", "src"]], [0], [], false, false, [], [["r", "src"]]⟩
    (by decide)
    ⟨["r"], ["src"], some [], false, [["a"], ["a", "b"]]⟩ (by decide)
    ["a"] (by decide) ["r", "src"] (by decide)

/-! ### C4: uniqueness of the (source_base, relative_path) keys -/

/-- C4 (amended): after `configure_jvm` completes, all source sets registered
during target analysis carry pairwise distinct `(source_base, path)` keys,
and those keys (string `path`) can never collide with the extra entries'
keys (`path = None`); the entries appended for the caller-supplied extra
source/test roots are pairwise distinct provided the concatenated extra path
list has no duplicates — which is forced: duplicated extra paths are appended
verbatim and violate the claim. -/
theorem configure_jvm_key_uniqueness (cfg : ProjectCfg) (fs : List FsPath)
    (fuel : Nat) (es et tb : List FsPath) (r : JvmResult)
    (hnd : (es ++ et).Nodup) (hres : configure_jvm cfg fs fuel es et tb = some r) :
    r.sources.Pairwise
      (fun a b => (a.source_base, a.path) ≠ (b.source_base, b.path)) := by
  obtain ⟨unex, hbu, hsrc, htg, -, -, -, -⟩ :=
    configure_jvm_some cfg fs fuel es et tb r hres
  obtain ⟨hsync, hpw, hcfg⟩ :=
    runWalks_good cfg fuel _ (goodState_init cfg.root_dir tb)
  rw [hsrc]
  rw [List.nodup_append] at hnd
  obtain ⟨hndes, hndet, hdisj⟩ := hnd
  rw [List.pairwise_append]
  refine ⟨?_, ?_, ?_⟩
  · rw [List.pairwise_append]
    refine ⟨?_, ?_, ?_⟩
    · rw [List.pairwise_map]
      refine hpw.imp ?_
      intro a b hab hk
      apply hab
      have h1 : a.source_base = b.source_base := congrArg Prod.fst hk
      have h2 : a.path = b.path := congrArg Prod.snd hk
      unfold ssAbsDir
      rw [h1, h2]
    · rw [List.pairwise_map]
      refine hndes.imp ?_
      intro p q hpq hk
      exact hpq (congrArg Prod.fst hk)
    · intro a ha b hb
      obtain ⟨a0, ha0, rfl⟩ := List.mem_map.mp ha
      obtain ⟨q, hq, rfl⟩ := List.mem_map.mp hb
      intro hk
      exact (hcfg a0 ha0).1 (congrArg Prod.snd hk)
  · rw [List.pairwise_map]
    refine hndet.imp ?_
    intro p q hpq hk
    exact hpq (congrArg Prod.fst hk)
  · intro a ha b hb
    obtain ⟨q, hqet, rfl⟩ := List.mem_map.mp hb
    rcases List.mem_append.mp ha with ham | hae
    · obtain ⟨a0, ha0, rfl⟩ := List.mem_map.mp ham
      intro hk
      exact (hcfg a0 ha0).1 (congrArg Prod.snd hk)
    · obtain ⟨p, hpes, rfl⟩ := List.mem_map.mp hae
      intro hk
      have h1 : p = q := congrArg Prod.fst hk
      exact hdisj hpes (by rw [h1]; exact hqet)

/-- C4 counterexample: the same path supplied both as an extra source root
and as an extra test root is appended twice with the same
`(source_base, path) = (a, None)` key — the claim over the final list,
extras included, is false. -/
theorem configure_jvm_key_claim_counterexample :
    configure_jvm
      ⟨["r"], ["r"], true, false, false, [],
        fun _ => ⟨[], [], false, false, false, false, false, [], [], []⟩⟩
      [] 5 [["a"]] [["a"]] [] =
      some ⟨[⟨["r"], ["a"], none, false, []⟩, ⟨["r"], ["a"], none, true, []⟩],
            [], [], [], [], false, false, [["a"]], []⟩
    ∧ ¬ ([(⟨["r"], ["a"], none, false, []⟩ : SourceSetL),
          ⟨["r"], ["a"], none, true, []⟩].Pairwise
          (fun a b => (a.source_base, a.path) ≠ (b.source_base, b.path))) := by
  constructor
  · decide
  · intro h
    rw [List.pairwise_cons] at h
    exact h.1 ⟨["r"], ["a"], none, true, []⟩ (List.mem_singleton.mpr rfl) rfl

/-- C4 witness: distinct extra roots yield pairwise distinct keys on a
concrete run. -/
theorem configure_jvm_key_uniqueness_witness :
    (([["x"]] ++ [["y"]] : List FsPath)).Nodup ∧
    ([(⟨["r"], ["x"], none, false, []⟩ : SourceSetL),
      ⟨["r"], ["y"], none, true, []⟩].Pairwise
        (fun a b => (a.source_base, a.path) ≠ (b.source_base, b.path))) := by
  refine ⟨by decide, ?_⟩
  have h := configure_jvm_key_uniqueness
    ⟨["r"], ["r"], true, false, false, [],
      fun _ => ⟨[], [], false, false, false, false, false, [], [], []⟩⟩
    [] 5 [["x"]] [["y"]] []
    ⟨[⟨["r"], ["x"], none, false, []⟩, ⟨["r"], ["y"], none, true, []⟩],
     [], [], [], [], false, false, [["y"]], []⟩
    (by decide) (by decide)
  exact h

/-! ### C5: what the recorded exclude paths are relative to -/

/-- C5 evaluation at the failing input: one target with base `src` and a
single source in subdirectory `a`, so the source set is
`(source_base = src, path = a)` owning `r/src/a`; the stray on-disk
directory `r/src/a/b` is excluded.  The code records the exclude as
`relpath(child, root_dir/source_base) = a/b` (line 524); joining
`root_dir/source_base` with it recovers the child, while joining
`root_dir/source_base/relative_path` with it — what the claim and the
`SourceSet.excludes` docstring prescribe — does not. -/
theorem configure_jvm_exclude_relative_base_eval :
    configure_jvm
      ⟨["r"], ["r"], true, false, false, [0],
        fun t => if t = 0 then
          ⟨["src"], [⟨["a"], "A.java"⟩], false, false, false, false, false, [], [], []⟩
        else ⟨[], [], false, false, false, false, false, [], [], []⟩⟩
      [["r", "src"], ["r", "src", "a"], ["r", "src", "a", "b"]] 9 [] [] [] =
      some ⟨[⟨["r"], ["src"], some ["a"], false, [["a", "b"]]⟩], [0],
            [["r", "src", "a"]], [0], [], false, false, [], [["r", "src", "a"]]⟩
    ∧ (["r"] : FsPath) ++ ["src"] ++ ["a", "b"] = ["r", "src", "a", "b"]
    ∧ (["r"] : FsPath) ++ ["src"] ++ ["a"] ++ ["a", "b"] ≠ ["r", "src", "a", "b"] := by
  refine ⟨by decide, by decide, by decide⟩

/-! ### C7: the `has_tests` flag -/

theorem cssStep_frame (cfg : ProjectCfg) (rb : FsPath) (it : Bool) (st : CState)
    (p : FsPath) :
    (cssStep cfg rb it st p).analyzed = st.analyzed ∧
    (cssStep cfg rb it st p).has_tests = st.has_tests := by
  unfold cssStep
  by_cases hmem : cfg.root_dir ++ rb ++ p ∈ st.targeted
  · rw [if_pos hmem]; exact ⟨rfl, rfl⟩
  · rw [if_neg hmem]; exact ⟨rfl, rfl⟩

theorem configure_source_sets_frame (cfg : ProjectCfg) (rb : FsPath)
    (srcs : List SourceFile) (it : Bool) (st : CState) :
    (configure_source_sets cfg rb srcs it st).analyzed = st.analyzed ∧
    (configure_source_sets cfg rb srcs it st).has_tests = st.has_tests :=
  foldl_inv (fun s => s.analyzed = st.analyzed ∧ s.has_tests = st.has_tests)
    (cssStep cfg rb it) _ st ⟨rfl, rfl⟩
    (fun s p hp =>
      ⟨(cssStep_frame cfg rb it s p).1.trans hp.1,
       (cssStep_frame cfg rb it s p).2.trans hp.2⟩)

theorem configureResourcesStep_frame (cfg : ProjectCfg) (st : CState)
    (bp : FsPath × List SourceFile) :
    (configureResourcesStep cfg st bp).analyzed = st.analyzed ∧
    (configureResourcesStep cfg st bp).has_tests = st.has_tests :=
  configure_source_sets_frame cfg bp.1 bp.2 false _

theorem configureTargetResources_frame (cfg : ProjectCfg) (ti : TargetInfo)
    (st : CState) :
    (configureTargetResources cfg ti st).analyzed = st.analyzed ∧
    (configureTargetResources cfg ti st).has_tests = st.has_tests := by
  unfold configureTargetResources
  split_ifs
  · exact foldl_inv (fun s => s.analyzed = st.analyzed ∧ s.has_tests = st.has_tests)
      (configureResourcesStep cfg) _ st ⟨rfl, rfl⟩
      (fun s bp hp =>
        ⟨(configureResourcesStep_frame cfg s bp).1.trans hp.1,
         (configureResourcesStep_frame cfg s bp).2.trans hp.2⟩)
  · exact ⟨rfl, rfl⟩

theorem configureTargetSources_fields (cfg : ProjectCfg) (ti : TargetInfo)
    (st : CState) :
    (configureTargetSources cfg ti st).analyzed = st.analyzed ∧
    (configureTargetSources cfg ti st).has_tests =
      (if !ti.sources.isEmpty then st.has_tests || ti.is_test else st.has_tests) := by
  unfold configureTargetSources
  split_ifs with hsrc
  · have hcss := configure_source_sets_frame cfg ti.target_base ti.sources ti.is_test
      { st with has_tests := st.has_tests || ti.is_test }
    exact ⟨hcss.1, hcss.2⟩
  · exact ⟨rfl, rfl⟩

theorem configureTargetState_has_tests (cfg : ProjectCfg) (t : TargetId) (st : CState) :
    (configureTargetState cfg t st).analyzed = st.analyzed ++ [t] ∧
    (configureTargetState cfg t st).has_tests =
      (if !(cfg.info t).sources.isEmpty then st.has_tests || (cfg.info t).is_test
       else st.has_tests) := by
  have hfr := configureTargetResources_frame cfg (cfg.info t)
    { st with analyzed := st.analyzed ++ [t],
              has_scala := !cfg.skip_scala && (st.has_scala || is_scala (cfg.info t)) }
  have hsf := configureTargetSources_fields cfg (cfg.info t)
    (configureTargetResources cfg (cfg.info t)
      { st with analyzed := st.analyzed ++ [t],
                has_scala := !cfg.skip_scala && (st.has_scala || is_scala (cfg.info t)) })
  constructor
  · exact hsf.1.trans hfr.1
  · show (configureTargetSources cfg (cfg.info t)
      (configureTargetResources cfg (cfg.info t)
        { st with analyzed := st.analyzed ++ [t],
                  has_scala := !cfg.skip_scala && (st.has_scala || is_scala (cfg.info t)) })).has_tests = _
    rw [hsf.2, hfr.2]

theorem configure_target_tests (cfg : ProjectCfg) (t : TargetId) (st : CState)
    (ht : source_target cfg t = true) (h : HasTestsInv cfg st) :
    HasTestsInv cfg (configure_target cfg t st).1 := by
  unfold configure_target
  split_ifs with hmem
  · exact h
  · have hsrc : (!(cfg.info t).sources.isEmpty) = true := by
      unfold source_target at ht
      simp only [Bool.and_eq_true] at ht
      exact ht.1.2
    obtain ⟨ha, hh⟩ := configureTargetState_has_tests cfg t st
    show (configureTargetState cfg t st).has_tests =
      (configureTargetState cfg t st).analyzed.any (fun t => (cfg.info t).is_test)
    rw [ha, hh, if_pos hsrc, h]
    simp [List.any_append]

theorem walkWork_tests (cfg : ProjectCfg) :
    ∀ (fuel : Nat) (wl visited : List TargetId) (st : CState),
      HasTestsInv cfg st → HasTestsInv cfg (walkWork cfg fuel wl visited st).2 := by
  intro fuel
  induction fuel with
  | zero => intro wl visited st h; simpa [walkWork] using h
  | succ n ih =>
    intro wl visited st h
    cases wl with
    | nil => simpa [walkWork] using h
    | cons t rest =>
      by_cases hv : t ∈ visited
      · simpa only [walkWork, hv, if_true] using ih rest visited st h
      · simp only [walkWork, hv, if_false]
        by_cases hst : source_target cfg t
        · simp only [hst, if_true]
          exact ih _ _ _ (configure_target_tests cfg t st hst h)
        · simp only [hst, if_false]
          exact ih _ _ _ h

/-- C7 (amended): after `configure_jvm` completes, `has_tests` is true iff
some analyzed (source-eligible, source-bearing) target is test-flagged;
resource sets are always registered non-test, and neither the caller-supplied
extra test roots nor python test roots ever set the flag.  Once true it is
never reset: `configure_target` preserves a true `has_tests`. -/
theorem configure_jvm_has_tests :
    (∀ (cfg : ProjectCfg) (fs : List FsPath) (fuel : Nat) (es et tb : List FsPath)
       (r : JvmResult), configure_jvm cfg fs fuel es et tb = some r →
       r.has_tests = r.analyzed.any (fun t => (cfg.info t).is_test))
    ∧ (∀ (cfg : ProjectCfg) (t : TargetId) (st : CState), st.has_tests = true →
        (configure_target cfg t st).1.has_tests = true) := by
  constructor
  · intro cfg fs fuel es et tb r hres
    obtain ⟨unex, hbu, hsrc, htg, hana, hht, -, -⟩ :=
      configure_jvm_some cfg fs fuel es et tb r hres
    rw [hht, hana]
    have hinv : HasTestsInv cfg (runWalks cfg fuel ⟨[], [], [], [], false, false, tb⟩) :=
      foldl_inv (HasTestsInv cfg) _ _ _ rfl
        (fun st t hp => walkWork_tests cfg fuel [t] [] st hp)
    exact hinv
  · intro cfg t st h
    unfold configure_target
    split_ifs with hmem
    · exact h
    · obtain ⟨-, hh⟩ := configureTargetState_has_tests cfg t st
      show (configureTargetState cfg t st).has_tests = true
      rw [hh, h]
      split_ifs <;> rfl

/-- C7 counterexample: a project with no JVM targets and a single extra test
root ends with a test-flagged source set absorbed (and its base recorded in
`TEST_BASES`) while `has_tests` is still false — the claim's "extra test
root with no test-flagged JVM target yields has_tests = true" is refuted. -/
theorem configure_jvm_extra_test_root_no_has_tests :
    configure_jvm
      ⟨["r"], ["r"], true, false, false, [],
        fun _ => ⟨[], [], false, false, false, false, false, [], [], []⟩⟩
      [] 5 [] [["t"]] [] =
      some ⟨[⟨["r"], ["t"], none, true, []⟩], [], [], [], [], false, false, [["t"]], []⟩
    ∧ (⟨[⟨["r"], ["t"], none, true, []⟩], [], [], [], [], false, false, [["t"]], []⟩
        : JvmResult).has_tests = false
    ∧ (⟨["r"], ["t"], none, true, []⟩ : SourceSetL).is_test = true := by
  refine ⟨by decide, rfl, rfl⟩

/-- C7 witness: on a run with one test-flagged target, `has_tests` equals the
analyzed-target disjunction (here: true); and `configure_target` keeps a true
flag true at a concrete state. -/
theorem configure_jvm_has_tests_witness :
    configure_jvm
      ⟨["r"], ["r"], true, false, false, [0],
        fun t => if t = 0 then
          ⟨["src"], [⟨[], "T.java"⟩], false, false, true, false, false, [], [], []⟩
        else ⟨[], [], false, false, false, false, false, [], [], []⟩⟩
      [] 9 [] [] [] =
      some ⟨[⟨["r"], ["src"], some [], true, []⟩], [0], [["r", "src"]], [0], [],
            false, true, [["src"]], [["r", "src"]]⟩
    ∧ (⟨[⟨["r"], ["src"], some [], true, []⟩], [0], [["r", "src"]], [0], [],
        false, true, [["src"]], [["r", "src"]]⟩ : JvmResult).has_tests =
      ([0] : List TargetId).any (fun t =>
        ((fun t => if t = 0 then
          (⟨["src"], [⟨[], "T.java"⟩], false, false, true, false, false, [], [], []⟩
            : TargetInfo)
        else ⟨[], [], false, false, false, false, false, [], [], []⟩) t).is_test) := by
  constructor
  · decide
  · exact configure_jvm_has_tests.1
      ⟨["r"], ["r"], true, false, false, [0],
        fun t => if t = 0 then
          ⟨["src"], [⟨[], "T.java"⟩], false, false, true, false, false, [], [], []⟩
        else ⟨[], [], false, false, false, false, false, [], [], []⟩⟩
      [] 9 [] [] []
      ⟨[⟨["r"], ["src"], some [], true, []⟩], [0], [["r", "src"]], [0], [],
        false, true, [["src"]], [["r", "src"]]⟩
      (by decide)

/-! ### C8: extra roots are appended after exclude computation, unscanned -/

/-- C8: `configure_jvm` appends, after the exclude phase, exactly one source
set per caller-supplied extra source/test root — built on `get_buildroot()`
with `path = None`, `is_test` true exactly for test roots, and an empty
exclude list — and the set of directory-tree scans issued (`walked_dirs`,
the roots of the `os.walk` calls of the exclude phase) is exactly that of the
same run with no extra roots: no scan is performed on account of any extra
root. -/
theorem configure_jvm_extras_appended (cfg : ProjectCfg) (fs : List FsPath)
    (fuel : Nat) (es et tb : List FsPath) :
    (configure_jvm cfg fs fuel es et tb).map (fun r => (r.sources, r.walked_dirs)) =
    (configure_jvm cfg fs fuel [] [] tb).map (fun r =>
      (r.sources
        ++ es.map (fun p => (⟨cfg.buildroot, p, none, false, []⟩ : SourceSetL))
        ++ et.map (fun p => (⟨cfg.buildroot, p, none, true, []⟩ : SourceSetL)),
       r.walked_dirs)) := by
  simp only [configure_jvm]
  rcases hbu : build_unexcludable cfg.root_dir
      (runWalks cfg fuel ⟨[], [], [], [], false, false, tb⟩).sources [] with - | unex
  · rfl
  · simp [extendExtras_fst]

/-! ### C9: the class-level shared TEST_BASES set -/

theorem cssStep_tb (cfg : ProjectCfg) (rb : FsPath) (it : Bool) (st : CState)
    (p : FsPath) (x : FsPath) (h : x ∈ st.test_bases) :
    x ∈ (cssStep cfg rb it st p).test_bases := by
  unfold cssStep
  by_cases hmem : cfg.root_dir ++ rb ++ p ∈ st.targeted
  · rw [if_pos hmem]; exact h
  · rw [if_neg hmem]
    show x ∈ (SourceSetInit cfg.root_dir rb (some p) it st.test_bases).2
    rw [SourceSetInit_snd]
    split_ifs
    · exact mem_ordAdd_of_mem _ _ _ h
    · exact h

theorem configure_source_sets_tb (cfg : ProjectCfg) (rb : FsPath)
    (srcs : List SourceFile) (it : Bool) (st : CState) (x : FsPath)
    (h : x ∈ st.test_bases) : x ∈ (configure_source_sets cfg rb srcs it st).test_bases :=
  foldl_inv (fun s => x ∈ s.test_bases) (cssStep cfg rb it) _ st h
    (fun s p hp => cssStep_tb cfg rb it s p x hp)

theorem configureResourcesStep_tb (cfg : ProjectCfg) (st : CState)
    (bp : FsPath × List SourceFile) (x : FsPath) (h : x ∈ st.test_bases) :
    x ∈ (configureResourcesStep cfg st bp).test_bases :=
  configure_source_sets_tb cfg bp.1 bp.2 false _ x h

theorem configureTargetResources_tb (cfg : ProjectCfg) (ti : TargetInfo) (st : CState)
    (x : FsPath) (h : x ∈ st.test_bases) :
    x ∈ (configureTargetResources cfg ti st).test_bases := by
  unfold configureTargetResources
  split_ifs
  · exact foldl_inv (fun s => x ∈ s.test_bases) (configureResourcesStep cfg) _ st h
      (fun s bp hp => configureResourcesStep_tb cfg s bp x hp)
  · exact h

theorem configureTargetState_tb (cfg : ProjectCfg) (t : TargetId) (st : CState)
    (x : FsPath) (h : x ∈ st.test_bases) :
    x ∈ (configureTargetState cfg t st).test_bases := by
  unfold configureTargetState configureTargetSources
  split_ifs
  · exact configure_source_sets_tb cfg _ _ _ _ x (configureTargetResources_tb cfg _ _ x h)
  · exact configureTargetResources_tb cfg _ _ x h

theorem configure_target_tb (cfg : ProjectCfg) (t : TargetId) (st : CState)
    (x : FsPath) (h : x ∈ st.test_bases) :
    x ∈ (configure_target cfg t st).1.test_bases := by
  unfold configure_target
  split_ifs
  · exact h
  · exact configureTargetState_tb cfg t st x h

theorem walkWork_tb (cfg : ProjectCfg) (x : FsPath) :
    ∀ (fuel : Nat) (wl visited : List TargetId) (st : CState),
      x ∈ st.test_bases → x ∈ (walkWork cfg fuel wl visited st).2.test_bases := by
  intro fuel
  induction fuel with
  | zero => intro wl visited st h; simpa [walkWork] using h
  | succ n ih =>
    intro wl visited st h
    cases wl with
    | nil => simpa [walkWork] using h
    | cons t rest =>
      by_cases hv : t ∈ visited
      · simpa only [walkWork, hv, if_true] using ih rest visited st h
      · simp only [walkWork, hv, if_false]
        by_cases hst : source_target cfg t
        · simp only [hst, if_true]
          exact ih _ _ _ (configure_target_tb cfg t st x h)
        · simp only [hst, if_false]
          exact ih _ _ _ h

/-- C9: constructing a `SourceSet` with `is_test = true` adds its
`source_base` to the shared class-level `TEST_BASES` set (keeping everything
already there); constructing with `is_test = false` leaves the set unchanged;
and `configure_jvm` only ever grows the set — state accumulated by one
invocation is still present in the set after any later invocation in the
same process. -/
theorem sourceset_test_bases_shared :
    (∀ (rd sb : FsPath) (p : Option FsPath) (tb : List FsPath),
       (SourceSetInit rd sb p true tb).2 = ordAdd tb sb
       ∧ sb ∈ (SourceSetInit rd sb p true tb).2
       ∧ (∀ x, x ∈ tb → x ∈ (SourceSetInit rd sb p true tb).2)
       ∧ (SourceSetInit rd sb p false tb).2 = tb)
    ∧ (∀ (cfg : ProjectCfg) (fs : List FsPath) (fuel : Nat) (es et tb : List FsPath)
         (r : JvmResult), configure_jvm cfg fs fuel es et tb = some r →
         ∀ x, x ∈ tb → x ∈ r.test_bases) := by
  constructor
  · intro rd sb p tb
    refine ⟨rfl, ?_, ?_, rfl⟩
    · rw [SourceSetInit_snd, if_pos rfl]
      exact mem_ordAdd_self tb sb
    · intro x hx
      rw [SourceSetInit_snd, if_pos rfl]
      exact mem_ordAdd_of_mem tb sb x hx
  · intro cfg fs fuel es et tb r hres x hx
    obtain ⟨unex, hbu, hsrc, htg, hana, hht, htr, hwd, htb⟩ :=
      configure_jvm_some cfg fs fuel es et tb r hres
    apply htb
    have hst : x ∈ (runWalks cfg fuel ⟨[], [], [], [], false, false, tb⟩).test_bases :=
      foldl_inv (fun s => x ∈ s.test_bases)
        (fun st t => (walkWork cfg fuel [t] [] st).2) cfg.targets
        ⟨[], [], [], [], false, false, tb⟩ hx
        (fun st t hp => walkWork_tb cfg x fuel [t] [] st hp)
    exact hst

/-- C9 witness: a previous invocation's entry survives a later
`configure_jvm` run, and the constructor facts instantiate. -/
theorem sourceset_test_bases_shared_witness :
    ((SourceSetInit ["r"] ["tb"] none true []).2 = ordAdd [] ["tb"]
      ∧ (["tb"] : FsPath) ∈ (SourceSetInit ["r"] ["tb"] none true []).2
      ∧ (∀ x, x ∈ ([] : List FsPath) → x ∈ (SourceSetInit ["r"] ["tb"] none true []).2)
      ∧ (SourceSetInit ["r"] ["tb"] none false []).2 = [])
    ∧ (["old"] : FsPath) ∈ (⟨[], [], [], [], [], false, false, [["old"]], []⟩
        : JvmResult).test_bases := by
  constructor
  · exact (sourceset_test_bases_shared.1 ["r"] ["tb"] none [])
  · exact sourceset_test_bases_shared.2
      ⟨["r"], ["r"], true, false, false, [],
        fun _ => ⟨[], [], false, false, false, false, false, [], [], []⟩⟩
      [] 5 [] [] [["old"]]
      ⟨[], [], [], [], [], false, false, [["old"]], []⟩
      (by decide) ["old"] (by decide)

theorem cssStep_resp (cfg : ProjectCfg) (rb : FsPath) (it : Bool)
    (s1 s2 : CState) (p : FsPath) (h : eqExceptTB s1 s2) :
    eqExceptTB (cssStep cfg rb it s1 p) (cssStep cfg rb it s2 p) := by
  obtain ⟨h1, h2, h3, h4, h5, h6⟩ := h
  unfold cssStep
  by_cases hmem : cfg.root_dir ++ rb ++ p ∈ s1.targeted
  · rw [if_pos hmem, if_pos (by rw [← h2]; exact hmem)]
    exact ⟨h1, h2, h3, h4, h5, h6⟩
  · rw [if_neg hmem, if_neg (by rw [← h2]; exact hmem)]
    refine ⟨h1, by rw [h2], ?_, h4, h5, h6⟩
    show s1.sources ++ [(SourceSetInit cfg.root_dir rb (some p) it s1.test_bases).1] =
      s2.sources ++ [(SourceSetInit cfg.root_dir rb (some p) it s2.test_bases).1]
    rw [SourceSetInit_fst, SourceSetInit_fst, h3]

theorem configure_source_sets_resp (cfg : ProjectCfg) (rb : FsPath)
    (srcs : List SourceFile) (it : Bool) (s1 s2 : CState) (h : eqExceptTB s1 s2) :
    eqExceptTB (configure_source_sets cfg rb srcs it s1)
      (configure_source_sets cfg rb srcs it s2) :=
  foldl_rel eqExceptTB (cssStep cfg rb it) _ s1 s2 h
    (fun s1 s2 p hp => cssStep_resp cfg rb it s1 s2 p hp)

theorem configureResourcesStep_resp (cfg : ProjectCfg) (s1 s2 : CState)
    (bp : FsPath × List SourceFile) (h : eqExceptTB s1 s2) :
    eqExceptTB (configureResourcesStep cfg s1 bp) (configureResourcesStep cfg s2 bp) := by
  obtain ⟨h1, h2, h3, h4, h5, h6⟩ := h
  show eqExceptTB
    (configure_source_sets cfg bp.1 bp.2 false
      { s1 with resource_extensions :=
          ordAddAll s1.resource_extensions (extract_resource_extensions bp.2) })
    (configure_source_sets cfg bp.1 bp.2 false
      { s2 with resource_extensions :=
          ordAddAll s2.resource_extensions (extract_resource_extensions bp.2) })
  apply configure_source_sets_resp
  exact ⟨h1, h2, h3, by rw [h4], h5, h6⟩

theorem configureTargetResources_resp (cfg : ProjectCfg) (ti : TargetInfo)
    (s1 s2 : CState) (h : eqExceptTB s1 s2) :
    eqExceptTB (configureTargetResources cfg ti s1) (configureTargetResources cfg ti s2) := by
  unfold configureTargetResources
  split_ifs
  · exact foldl_rel eqExceptTB (configureResourcesStep cfg) _ s1 s2 h
      (fun s1 s2 bp hp => configureResourcesStep_resp cfg s1 s2 bp hp)
  · exact h

theorem configureTargetSources_resp (cfg : ProjectCfg) (ti : TargetInfo)
    (s1 s2 : CState) (h : eqExceptTB s1 s2) :
    eqExceptTB (configureTargetSources cfg ti s1) (configureTargetSources cfg ti s2) := by
  obtain ⟨h1, h2, h3, h4, h5, h6⟩ := h
  unfold configureTargetSources
  split_ifs
  · apply configure_source_sets_resp
    exact ⟨h1, h2, h3, h4, h5, by rw [h6]⟩
  · exact ⟨h1, h2, h3, h4, h5, h6⟩

theorem configureTargetState_resp (cfg : ProjectCfg) (t : TargetId)
    (s1 s2 : CState) (h : eqExceptTB s1 s2) :
    eqExceptTB (configureTargetState cfg t s1) (configureTargetState cfg t s2) := by
  obtain ⟨h1, h2, h3, h4, h5, h6⟩ := h
  unfold configureTargetState
  apply configureTargetSources_resp
  apply configureTargetResources_resp
  exact ⟨by rw [h1], h2, h3, h4, by rw [h5], h6⟩

theorem configure_target_resp (cfg : ProjectCfg) (t : TargetId)
    (s1 s2 : CState) (h : eqExceptTB s1 s2) :
    eqExceptTB (configure_target cfg t s1).1 (configure_target cfg t s2).1 ∧
    (configure_target cfg t s1).2 = (configure_target cfg t s2).2 := by
  unfold configure_target
  by_cases hmem : t ∈ s1.analyzed
  · rw [if_pos hmem, if_pos (by rw [← h.1]; exact hmem)]
    exact ⟨h, rfl⟩
  · rw [if_neg hmem, if_neg (by rw [← h.1]; exact hmem)]
    exact ⟨configureTargetState_resp cfg t s1 s2 h, rfl⟩

theorem walkWork_resp (cfg : ProjectCfg) :
    ∀ (fuel : Nat) (wl visited : List TargetId) (s1 s2 : CState),
      eqExceptTB s1 s2 →
      (walkWork cfg fuel wl visited s1).1 = (walkWork cfg fuel wl visited s2).1 ∧
      eqExceptTB (walkWork cfg fuel wl visited s1).2 (walkWork cfg fuel wl visited s2).2 := by
  intro fuel
  induction fuel with
  | zero => intro wl visited s1 s2 h; exact ⟨rfl, h⟩
  | succ n ih =>
    intro wl visited s1 s2 h
    cases wl with
    | nil => exact ⟨rfl, h⟩
    | cons t rest =>
      by_cases hv : t ∈ visited
      · simp only [walkWork, hv, if_true]
        exact ih rest visited s1 s2 h
      · simp only [walkWork, hv, if_false]
        by_cases hst : source_target cfg t
        · simp only [hst, if_true]
          obtain ⟨hr, hadd⟩ := configure_target_resp cfg t s1 s2 h
          rw [hadd]
          exact ih _ _ _ _ hr
        · simp only [hst, if_false]
          exact ih _ _ _ _ h

theorem runWalks_resp (cfg : ProjectCfg) (fuel : Nat) (s1 s2 : CState)
    (h : eqExceptTB s1 s2) :
    eqExceptTB (runWalks cfg fuel s1) (runWalks cfg fuel s2) :=
  foldl_rel eqExceptTB (fun st t => (walkWork cfg fuel [t] [] st).2) cfg.targets s1 s2 h
    (fun s1 s2 t hp => (walkWork_resp cfg fuel [t] [] s1 s2 hp).2)

/-- C6: two `configure_jvm` runs on freshly constructed projects with
identical target sets, filesystem snapshot, flags and extra roots — sharing
only the process-wide mutable `SourceSet.TEST_BASES` set, whatever its
contents — produce identical ordered source-set lists (same entries, same
excludes, in the same order) and identical expanded target sets in the same
order. -/
theorem configure_jvm_deterministic (cfg : ProjectCfg) (fs : List FsPath)
    (fuel : Nat) (es et tb1 tb2 : List FsPath) :
    (configure_jvm cfg fs fuel es et tb1).map (fun r => (r.sources, r.targets)) =
    (configure_jvm cfg fs fuel es et tb2).map (fun r => (r.sources, r.targets)) := by
  obtain ⟨h1, h2, h3, h4, h5, h6⟩ :=
    runWalks_resp cfg fuel ⟨[], [], [], [], false, false, tb1⟩
      ⟨[], [], [], [], false, false, tb2⟩ ⟨rfl, rfl, rfl, rfl, rfl, rfl⟩
  simp only [configure_jvm]
  rw [h3, h2, h1]
  rcases hbu : build_unexcludable cfg.root_dir
      (runWalks cfg fuel ⟨[], [], [], [], false, false, tb2⟩).sources [] with - | unex
  · rfl
  · simp [extendExtras_fst]
